import Mathlib

/-!
Verification of `piton.py`: a converter from PostgreSQL internal `timestamptz`
values (signed 64-bit microsecond offsets from 2000-01-01T00:00:00 UTC) to UTC
calendar datetimes, and a decoder of little-endian hex tokens into signed
64-bit integers.

The embedding mirrors CPython's `datetime` module internals (proleptic
Gregorian calendar, `_ord2ymd` / `_ymd2ord`, `timedelta` normalisation with
floor division, the `0 < ordinal <= _MAXORDINAL` overflow check in
`datetime.__add__`), `bytes.fromhex` (hex pairs with ASCII whitespace skipped
between bytes) and `int.from_bytes(..., byteorder='little', signed=True)`.
-/

deriving instance DecidableEq for Except

/-! ## Calendar model (CPython `datetime` internals) -/

/-- CPython `datetime._is_leap`: Gregorian leap-year predicate. -/
def isLeapYear (year : Nat) : Bool :=
  year % 4 == 0 && (year % 100 != 0 || year % 400 == 0)

/-- CPython `datetime._DAYS_IN_MONTH` (without the index-0 sentinel):
entry `m - 1` is the length of month `m` in a non-leap year. -/
def DAYS_IN_MONTH : List Nat := [31, 28, 31, 30, 31, 30, 31, 31, 30, 31, 30, 31]

/-- CPython `datetime._DAYS_BEFORE_MONTH` (without the index-0 sentinel):
entry `m - 1` is the number of days before month `m` in a non-leap year. -/
def DAYS_BEFORE_MONTH : List Nat := [0, 31, 59, 90, 120, 151, 181, 212, 243, 273, 304, 334]

/-- CPython `datetime._days_before_year`: days before January 1st of `year`,
counting from day 0 = January 1st of year 1. -/
def daysBeforeYear (year : Nat) : Nat :=
  let y := year - 1
  y * 365 + y / 4 - y / 100 + y / 400

/-- CPython `datetime._days_in_month`. -/
def daysInMonth (year month : Nat) : Nat :=
  if month == 2 && isLeapYear year then 29 else DAYS_IN_MONTH.getD (month - 1) 0

/-- CPython `datetime._days_before_month`. -/
def daysBeforeMonth (year month : Nat) : Nat :=
  DAYS_BEFORE_MONTH.getD (month - 1) 0 + (if month > 2 && isLeapYear year then 1 else 0)

/-- CPython `datetime._ymd2ord` (= `date.toordinal`): proleptic Gregorian
ordinal of a calendar date, with 0001-01-01 having ordinal 1. -/
def ymd2ord (year month day : Nat) : Nat :=
  daysBeforeYear year + daysBeforeMonth year month + day

/-- CPython `datetime._DI400Y`: days in a 400-year Gregorian cycle. -/
def DI400Y : Nat := daysBeforeYear 401

/-- CPython `datetime._DI100Y`: days in a non-cycle-final century. -/
def DI100Y : Nat := daysBeforeYear 101

/-- CPython `datetime._DI4Y`: days in a 4-year span ending in a leap year. -/
def DI4Y : Nat := daysBeforeYear 5

/-- The month-finding tail of CPython `datetime._ord2ymd`: given the leap-year
flag and the 0-based day index `n` within the year, return `(month, day)` via
the `(n + 50) >> 5` estimate with one-step correction. -/
def ord2ymdMonthDay (leapyear : Bool) (n : Nat) : Nat × Nat :=
  let month := (n + 50) >>> 5
  let preceding := DAYS_BEFORE_MONTH.getD (month - 1) 0 +
    (if month > 2 && leapyear then 1 else 0)
  if preceding > n then
    let month' := month - 1
    let preceding' := preceding -
      (DAYS_IN_MONTH.getD (month' - 1) 0 + (if month' == 2 && leapyear then 1 else 0))
    (month', n - preceding' + 1)
  else
    (month, n - preceding + 1)

/-- CPython `datetime._ord2ymd` (= `date.fromordinal`): convert a proleptic
Gregorian ordinal (0001-01-01 is ordinal 1) to `(year, month, day)` using the
400 / 100 / 4 / 1-year cycle decomposition. -/
def ord2ymd (n : Nat) : Nat × Nat × Nat :=
  let n0 := n - 1
  let n400 := n0 / DI400Y
  let r400 := n0 % DI400Y
  let n100 := r400 / DI100Y
  let r100 := r400 % DI100Y
  let n4 := r100 / DI4Y
  let r4 := r100 % DI4Y
  let n1 := r4 / 365
  let r1 := r4 % 365
  let year := n400 * 400 + 1 + n100 * 100 + n4 * 4 + n1
  if n1 == 4 || n100 == 4 then
    (year - 1, 12, 31)
  else
    let leapyear := n1 == 3 && (n4 != 24 || n100 == 3)
    let md := ord2ymdMonthDay leapyear r1
    (year, md.1, md.2)

/-! ## The datetime value produced by the converter -/

/-- Timezone attached to a datetime; the source only ever uses `timezone.utc`. -/
inductive PyTzinfo where
  | utc
deriving DecidableEq

/-- A Python `datetime.datetime` value: calendar fields plus timezone. -/
structure PyDatetime where
  year : Nat
  month : Nat
  day : Nat
  hour : Nat
  minute : Nat
  second : Nat
  microsecond : Nat
  tzinfo : PyTzinfo
deriving DecidableEq

/-- CPython `datetime._MAXORDINAL = _ymd2ord(9999, 12, 31)`. -/
def MAXORDINAL : Nat := ymd2ord 9999 12 31

/-- `postgres_timestamptz_to_datetime` from `piton.py`:
`datetime(2000, 1, 1, tzinfo=timezone.utc) + timedelta(microseconds=int64_value)`.
Mirrors `datetime.__add__`: the epoch's ordinal (in days) and the offset are
combined into a single microsecond total, normalised with floor division the
way `timedelta` does, checked against `0 < days <= _MAXORDINAL`, and the date
part is recovered with `date.fromordinal`.  `none` models the `OverflowError`
("result out of range") raised when the check fails. -/
def postgres_timestamptz_to_datetime (int64_value : Int) : Option PyDatetime :=
  let total : Int := (ymd2ord 2000 1 1 : Int) * 86400000000 + int64_value
  let days : Int := total.fdiv 86400000000
  let remMicro : Nat := (total.fmod 86400000000).toNat
  let deltaSeconds := remMicro / 1000000
  let deltaMicroseconds := remMicro % 1000000
  let hour := deltaSeconds / 3600
  let rem := deltaSeconds % 3600
  let minute := rem / 60
  let second := rem % 60
  if 0 < days ∧ days ≤ (MAXORDINAL : Int) then
    let ymd := ord2ymd days.toNat
    some ⟨ymd.1, ymd.2.1, ymd.2.2, hour, minute, second, deltaMicroseconds, .utc⟩
  else
    none

/-! ## Hex decoding (CPython `bytes.fromhex` and `int.from_bytes`) -/

/-- C `Py_ISSPACE`: the six ASCII whitespace characters that
`bytes.fromhex` skips between encoded bytes. -/
def isPySpace (c : Char) : Bool :=
  c == ' ' || c == '\t' || c == '\n' || c == '\x0b' || c == '\x0c' || c == '\r'

/-- CPython `_PyLong_DigitValue` restricted to hex: the value of a hexadecimal
digit character, or 16 for any non-hex character. -/
def hexDigitValue (c : Char) : Nat :=
  if '0' ≤ c ∧ c ≤ '9' then c.toNat - 48
  else if 'a' ≤ c ∧ c ≤ 'f' then c.toNat - 87
  else if 'A' ≤ c ∧ c ≤ 'F' then c.toNat - 55
  else 16

/-- A character is a hexadecimal digit (case-insensitive). -/
def isHexDigit (c : Char) : Bool := hexDigitValue c < 16

/-- CPython `bytes.fromhex` (`_PyBytes_FromHex`): skip ASCII whitespace, then
read two consecutive hex digits per byte; `none` models the
`ValueError: non-hexadecimal number found in fromhex() arg`. -/
def bytesFromHex : List Char → Option (List Nat)
  | [] => some []
  | c :: rest =>
    if isPySpace c then bytesFromHex rest
    else if isHexDigit c then
      match rest with
      | [] => none
      | d :: rest2 =>
        if isHexDigit d then
          (bytesFromHex rest2).map (fun bs => (hexDigitValue c * 16 + hexDigitValue d) :: bs)
        else none
    else none

/-- Value of a byte list read in little-endian order (first byte least
significant), as an unsigned integer. -/
def leUnsigned : List Nat → Nat
  | [] => 0
  | b :: rest => b + 256 * leUnsigned rest

/-- CPython `int.from_bytes(byte_data, byteorder='little', signed=True)`:
two's-complement interpretation of the little-endian byte list. -/
def intFromBytesLESigned (bs : List Nat) : Int :=
  let u := leUnsigned bs
  if 2 * u ≥ 256 ^ bs.length then (u : Int) - (256 ^ bs.length : Nat) else (u : Int)

/-- `hex_le_to_int64` from `piton.py`: length check, `bytes.fromhex`, then
signed little-endian `int.from_bytes`.  Both failure modes raise `ValueError`
in Python; they are modelled as `Except.error` with the corresponding message. -/
def hex_le_to_int64 (hex_str : String) : Except String Int :=
  if hex_str.length ≠ 16 then
    .error "Hex string must be exactly 16 characters (8 bytes)."
  else
    match bytesFromHex hex_str.data with
    | none => .error "non-hexadecimal number found in fromhex() arg"
    | some byte_data => .ok (intFromBytesLESigned byte_data)


/-! ## Spec-side reference definitions -/

/-- Modelled from the spec: the absolute position of a calendar timestamp on
the microsecond time line, measured from 0001-01-01T00:00:00 (the minimum of
the timestamp type), via the independent calendar-to-ordinal map `ymd2ord`.
"always `epoch_constant + microsecond_offset`" is stated through this measure. -/
def datetimeToMicros (dt : PyDatetime) : Int :=
  ((ymd2ord dt.year dt.month dt.day : Int) - 1) * 86400000000 +
    (dt.hour : Int) * 3600000000 + (dt.minute : Int) * 60000000 +
    (dt.second : Int) * 1000000 + (dt.microsecond : Int)

/-- The PostgreSQL epoch 2000-01-01T00:00:00 UTC on the same microsecond
time line. -/
def POSTGRES_EPOCH_MICROS : Int := ((ymd2ord 2000 1 1 : Int) - 1) * 86400000000

/-- Python's `datetime.min` (with UTC attached): 0001-01-01T00:00:00. -/
def DATETIME_MIN : PyDatetime := ⟨1, 1, 1, 0, 0, 0, 0, .utc⟩

/-- Python's `datetime.max` (with UTC attached): 9999-12-31T23:59:59.999999. -/
def DATETIME_MAX : PyDatetime := ⟨9999, 12, 31, 23, 59, 59, 999999, .utc⟩

/-- Modelled from the spec: the field constraints the Python `datetime`
constructor enforces, i.e. what it means to be a real calendar timestamp. -/
def isValidDatetime (dt : PyDatetime) : Bool :=
  1 ≤ dt.year && dt.year ≤ 9999 && 1 ≤ dt.month && dt.month ≤ 12 &&
  1 ≤ dt.day && dt.day ≤ daysInMonth dt.year dt.month &&
  dt.hour ≤ 23 && dt.minute ≤ 59 && dt.second ≤ 59 && dt.microsecond ≤ 999999

/-- A lowercase hexadecimal digit character. -/
def isLowerHexDigit (c : Char) : Bool :=
  ('0' ≤ c && c ≤ '9') || ('a' ≤ c && c ≤ 'f')

/-- Modelled from the spec: the hex character of a digit value, lowercase
(the canonical form produced by Python's `bytes.hex`). -/
def hexDigitChar (d : Nat) : Char :=
  if d < 10 then Char.ofNat (48 + d) else Char.ofNat (87 + d)

/-- Modelled from the spec: a byte rendered as two hex characters,
most significant nibble first. -/
def byteToHexChars (b : Nat) : List Char :=
  [hexDigitChar (b / 16), hexDigitChar (b % 16)]

/-- Modelled from the spec: re-encode a signed 64-bit integer as the
16-character little-endian hex token of its two's-complement representation
(the encoder direction of the round-trip law; absent from the source). -/
def int64ToHexLE (v : Int) : String :=
  let u : Nat := (v % (2 ^ 64 : Int)).toNat
  ⟨(List.range 8).flatMap (fun i => byteToHexChars (u / 256 ^ i % 256))⟩

/-! ## Arithmetic facts about the calendar model -/

theorem DI400Y_eq : DI400Y = 146097 := rfl

theorem DI100Y_eq : DI100Y = 36524 := rfl

theorem DI4Y_eq : DI4Y = 1461 := rfl

theorem MAXORDINAL_eq : MAXORDINAL = 3652059 := rfl

theorem isLeapYear_iff (y : Nat) :
    isLeapYear y = true ↔ (y % 4 = 0 ∧ (y % 100 ≠ 0 ∨ y % 400 = 0)) := by
  simp [isLeapYear]

/-- Correctness of the month-finding tail of `_ord2ymd` on every day index of
a year, checked exhaustively. -/
theorem ord2ymdMonthDay_correct (L : Bool) :
    ∀ n : Nat, n < 366 → (L = false → n < 365) →
      1 ≤ (ord2ymdMonthDay L n).1 ∧ (ord2ymdMonthDay L n).1 ≤ 12 ∧
      1 ≤ (ord2ymdMonthDay L n).2 ∧
      (ord2ymdMonthDay L n).2 ≤
        (if (ord2ymdMonthDay L n).1 == 2 && L then 29
         else DAYS_IN_MONTH.getD ((ord2ymdMonthDay L n).1 - 1) 0) ∧
      DAYS_BEFORE_MONTH.getD ((ord2ymdMonthDay L n).1 - 1) 0 +
        (if (ord2ymdMonthDay L n).1 > 2 && L then 1 else 0) +
        (ord2ymdMonthDay L n).2 = n + 1 := by
  cases L <;> · set_option maxRecDepth 4000 in decide

theorem daysInMonth_12 (y : Nat) : daysInMonth y 12 = 31 := by
  simp [daysInMonth, DAYS_IN_MONTH]

theorem daysBeforeMonth_12 (y : Nat) :
    daysBeforeMonth y 12 = 334 + (if isLeapYear y then 1 else 0) := by
  simp [daysBeforeMonth, DAYS_BEFORE_MONTH]

/-- Days before year `400a + 100b + 4c + d + 1` of the cycle decomposition. -/
theorem daysBeforeYear_decomp (a c1 c2 c3 : Nat) (h1 : c1 ≤ 3) (h2 : c2 ≤ 24) (h3 : c3 ≤ 3) :
    daysBeforeYear (a * 400 + 1 + c1 * 100 + c2 * 4 + c3) =
      a * 146097 + c1 * 36524 + c2 * 1461 + c3 * 365 := by
  have e1 : a * 400 + 1 + c1 * 100 + c2 * 4 + c3 - 1 = a * 400 + c1 * 100 + c2 * 4 + c3 := by
    omega
  simp only [daysBeforeYear, e1]
  have e4 : (a * 400 + c1 * 100 + c2 * 4 + c3) / 4 = a * 100 + c1 * 25 + c2 := by
    rw [show a * 400 + c1 * 100 + c2 * 4 + c3 = 4 * (a * 100 + c1 * 25 + c2) + c3 by ring,
      Nat.mul_add_div (by norm_num)]
    omega
  have e100 : (a * 400 + c1 * 100 + c2 * 4 + c3) / 100 = a * 4 + c1 := by
    rw [show a * 400 + c1 * 100 + c2 * 4 + c3 = 100 * (a * 4 + c1) + (c2 * 4 + c3) by ring,
      Nat.mul_add_div (by norm_num)]
    omega
  have e400 : (a * 400 + c1 * 100 + c2 * 4 + c3) / 400 = a := by
    rw [show a * 400 + c1 * 100 + c2 * 4 + c3 = 400 * a + (c1 * 100 + c2 * 4 + c3) by ring,
      Nat.mul_add_div (by norm_num)]
    omega
  rw [e4, e100, e400]
  omega

/-- `_ymd2ord` inverts `_ord2ymd` on the whole ordinal range of the `datetime`
type, and `_ord2ymd` only produces real calendar dates there. -/
theorem ord2ymd_ymd2ord (n : Nat) (h1 : 1 ≤ n) (h2 : n ≤ 3652059) :
    1 ≤ (ord2ymd n).1 ∧ (ord2ymd n).1 ≤ 9999 ∧
    1 ≤ (ord2ymd n).2.1 ∧ (ord2ymd n).2.1 ≤ 12 ∧
    1 ≤ (ord2ymd n).2.2 ∧ (ord2ymd n).2.2 ≤ daysInMonth (ord2ymd n).1 (ord2ymd n).2.1 ∧
    ymd2ord (ord2ymd n).1 (ord2ymd n).2.1 (ord2ymd n).2.2 = n := by
  simp only [ord2ymd, DI400Y_eq, DI100Y_eq, DI4Y_eq]
  set t := n - 1 with ht
  set a := t / 146097 with ha
  set b := t % 146097 with hb
  set c1 := b / 36524 with hc1
  set r100 := b % 36524 with hr100
  set c2 := r100 / 1461 with hc2
  set r4 := r100 % 1461 with hr4
  set c3 := r4 / 365 with hc3
  set r1 := r4 % 365 with hr1
  split
  case isTrue h =>
    -- last day of a leap year: December 31st
    dsimp only
    simp only [Bool.or_eq_true, beq_iff_eq] at h
    refine ⟨by omega, by omega, by omega, by omega, by omega, ?_, ?_⟩
    · rw [daysInMonth_12]
    · rw [ymd2ord]
      rcases h with h | h
      · have hyr : a * 400 + 1 + c1 * 100 + c2 * 4 + c3 - 1 =
            a * 400 + 1 + c1 * 100 + c2 * 4 + 3 := by omega
        have hy : isLeapYear (a * 400 + 1 + c1 * 100 + c2 * 4 + 3) = true := by
          rw [isLeapYear_iff]; omega
        have hdbm : daysBeforeMonth (a * 400 + 1 + c1 * 100 + c2 * 4 + 3) 12 = 335 := by
          simp [daysBeforeMonth_12, hy]
        rw [hyr, hdbm, daysBeforeYear_decomp a c1 c2 3 (by omega) (by omega) (by omega)]
        omega
      · have hyr : a * 400 + 1 + c1 * 100 + c2 * 4 + c3 - 1 =
            a * 400 + 1 + 3 * 100 + 24 * 4 + 3 := by omega
        have hy : isLeapYear (a * 400 + 1 + 3 * 100 + 24 * 4 + 3) = true := by
          rw [isLeapYear_iff]; omega
        have hdbm : daysBeforeMonth (a * 400 + 1 + 3 * 100 + 24 * 4 + 3) 12 = 335 := by
          simp [daysBeforeMonth_12, hy]
        rw [hyr, hdbm, daysBeforeYear_decomp a 3 24 3 (by omega) (by omega) (by omega)]
        omega
  case isFalse h =>
    dsimp only
    simp only [Bool.or_eq_true, beq_iff_eq, not_or] at h
    obtain ⟨hc3ne, hc1ne⟩ := h
    obtain ⟨p1, p2, p3, p4, p5⟩ :=
      ord2ymdMonthDay_correct (c3 == 3 && (c2 != 24 || c1 == 3)) r1 (by omega) (fun _ => by omega)
    have hLeap : isLeapYear (a * 400 + 1 + c1 * 100 + c2 * 4 + c3) =
        (c3 == 3 && (c2 != 24 || c1 == 3)) := by
      rw [Bool.eq_iff_iff, isLeapYear_iff]
      simp only [Bool.and_eq_true, Bool.or_eq_true, beq_iff_eq, bne_iff_ne, ne_eq]
      omega
    refine ⟨by omega, by omega, p1, p2, p3, ?_, ?_⟩
    · rw [daysInMonth, hLeap]
      exact p4
    · rw [ymd2ord, daysBeforeMonth, hLeap,
        daysBeforeYear_decomp a c1 c2 c3 (by omega) (by omega) (by omega)]
      omega

theorem ymd2ord_2000 : ymd2ord 2000 1 1 = 730120 := rfl

theorem POSTGRES_EPOCH_MICROS_eq : POSTGRES_EPOCH_MICROS = 63082281600000000 := rfl

/-- Whenever the converter succeeds, the produced value is a real calendar
timestamp carrying UTC, it sits on the microsecond time line exactly at
`epoch + offset`, and its microsecond field is the exact microsecond residue
of the offset. -/
theorem postgres_result_spec (n : Int) (dt : PyDatetime)
    (h : postgres_timestamptz_to_datetime n = some dt) :
    datetimeToMicros dt = POSTGRES_EPOCH_MICROS + n ∧
    isValidDatetime dt = true ∧
    dt.tzinfo = .utc ∧
    (dt.microsecond : Int) = (POSTGRES_EPOCH_MICROS + n) % 1000000 := by
  simp only [postgres_timestamptz_to_datetime, ymd2ord_2000, MAXORDINAL_eq] at h
  set total : Int := (730120 : Nat) * 86400000000 + n with htotal
  have hfd : 86400000000 * total.fdiv 86400000000 + total.fmod 86400000000 = total :=
    Int.fdiv_add_fmod _ _
  have hr0 : 0 ≤ total.fmod 86400000000 := Int.fmod_nonneg' _ (by norm_num)
  have hrlt : total.fmod 86400000000 < 86400000000 := Int.fmod_lt_of_pos _ (by norm_num)
  set q := total.fdiv 86400000000 with hq
  set r := total.fmod 86400000000 with hr
  split at h
  case isFalse => exact absurd h (by simp)
  case isTrue hcond =>
    injection h with h
    subst h
    have hD1 : 1 ≤ q.toNat := by omega
    have hD2 : q.toNat ≤ 3652059 := by omega
    obtain ⟨b1, b2, b3, b4, b5, b6, b7⟩ := ord2ymd_ymd2ord q.toNat hD1 hD2
    constructor
    · simp only [datetimeToMicros, POSTGRES_EPOCH_MICROS_eq]
      rw [b7]
      push_cast
      omega
    refine ⟨?_, rfl, ?_⟩
    · simp only [isValidDatetime, Bool.and_eq_true, decide_eq_true_eq]
      refine ⟨⟨⟨⟨⟨⟨⟨⟨⟨b1, b2⟩, b3⟩, b4⟩, b5⟩, b6⟩, ?_⟩, ?_⟩, ?_⟩, ?_⟩ <;> omega
    · rw [POSTGRES_EPOCH_MICROS_eq]
      push_cast
      omega

/-- Claim C1: for every signed 64-bit integer offset whose result is
representable, `postgres_timestamptz_to_datetime` returns exactly the calendar
timestamp 2000-01-01T00:00:00 UTC plus the offset in microseconds: a valid
calendar datetime carrying the UTC zone, sitting on the microsecond time line
exactly at `POSTGRES_EPOCH_MICROS + offset`, with the microsecond component
preserved exactly. -/
theorem postgres_conversion_exact (n : Int)
    (hlo : -(2 ^ 63) ≤ n) (hhi : n < 2 ^ 63)
    (dt : PyDatetime) (h : postgres_timestamptz_to_datetime n = some dt) :
    datetimeToMicros dt = POSTGRES_EPOCH_MICROS + n ∧
    isValidDatetime dt = true ∧
    dt.tzinfo = .utc ∧
    (dt.microsecond : Int) = (POSTGRES_EPOCH_MICROS + n) % 1000000 :=
  postgres_result_spec n dt h

theorem postgres_conversion_exact_witness :
    (-(2 ^ 63) ≤ (0 : Int) ∧ (0 : Int) < 2 ^ 63 ∧
      postgres_timestamptz_to_datetime 0 = some ⟨2000, 1, 1, 0, 0, 0, 0, .utc⟩) ∧
    (datetimeToMicros ⟨2000, 1, 1, 0, 0, 0, 0, .utc⟩ = POSTGRES_EPOCH_MICROS + 0 ∧
     isValidDatetime ⟨2000, 1, 1, 0, 0, 0, 0, .utc⟩ = true ∧
     PyDatetime.tzinfo ⟨2000, 1, 1, 0, 0, 0, 0, .utc⟩ = .utc ∧
     ((PyDatetime.microsecond ⟨2000, 1, 1, 0, 0, 0, 0, .utc⟩ : Nat) : Int) =
       (POSTGRES_EPOCH_MICROS + 0) % 1000000) :=
  ⟨⟨by decide, by decide, by decide⟩,
   postgres_conversion_exact 0 (by decide) (by decide)
     ⟨2000, 1, 1, 0, 0, 0, 0, .utc⟩ (by decide)⟩

/-- Claim C4 (counterexample): at offset 662770800000000 the converter does
not return 2021-01-01T03:40:00 UTC as claimed; the value it actually returns
is 2020-12-31T23:00:00 UTC. -/
theorem sample_offset_not_claimed :
    postgres_timestamptz_to_datetime 662770800000000 ≠
      some ⟨2021, 1, 1, 3, 40, 0, 0, .utc⟩ := by decide

/-- Claim C4 (amended): for the input offset 662770800000000,
`postgres_timestamptz_to_datetime` returns the UTC timestamp
2020-12-31T23:00:00.000000. -/
theorem sample_offset_value :
    postgres_timestamptz_to_datetime 662770800000000 =
      some ⟨2020, 12, 31, 23, 0, 0, 0, .utc⟩ := by decide

/-- Claim C6: for every signed 64-bit offset, the converter succeeds exactly
when the epoch plus the offset lies inside the representable range of the
datetime type (`datetime.min` to `datetime.max`); outside it, and only
outside it, the conversion fails with the out-of-range error (`none`). -/
theorem postgres_out_of_range_iff (n : Int)
    (hlo : -(2 ^ 63) ≤ n) (hhi : n < 2 ^ 63) :
    (postgres_timestamptz_to_datetime n).isSome = true ↔
      (datetimeToMicros DATETIME_MIN ≤ POSTGRES_EPOCH_MICROS + n ∧
       POSTGRES_EPOCH_MICROS + n ≤ datetimeToMicros DATETIME_MAX) := by
  have hmin : datetimeToMicros DATETIME_MIN = 0 := by decide
  have hmax : datetimeToMicros DATETIME_MAX = 315537897599999999 := by decide
  rw [hmin, hmax, POSTGRES_EPOCH_MICROS_eq]
  simp only [postgres_timestamptz_to_datetime, ymd2ord_2000, MAXORDINAL_eq]
  set total : Int := (730120 : Nat) * 86400000000 + n with htotal
  have hfd : 86400000000 * total.fdiv 86400000000 + total.fmod 86400000000 = total :=
    Int.fdiv_add_fmod _ _
  have hr0 : 0 ≤ total.fmod 86400000000 := Int.fmod_nonneg' _ (by norm_num)
  have hrlt : total.fmod 86400000000 < 86400000000 := Int.fmod_lt_of_pos _ (by norm_num)
  split
  case isTrue hcond =>
    simp only [Option.isSome_some, true_iff]
    omega
  case isFalse hcond =>
    simp only [Option.isSome_none, Bool.false_eq_true, false_iff, not_and, not_le]
    omega

theorem postgres_out_of_range_iff_witness :
    (-(2 ^ 63) ≤ (0 : Int) ∧ (0 : Int) < 2 ^ 63) ∧
    ((postgres_timestamptz_to_datetime 0).isSome = true ↔
      (datetimeToMicros DATETIME_MIN ≤ POSTGRES_EPOCH_MICROS + 0 ∧
       POSTGRES_EPOCH_MICROS + 0 ≤ datetimeToMicros DATETIME_MAX)) :=
  ⟨⟨by decide, by decide⟩, postgres_out_of_range_iff 0 (by decide) (by decide)⟩

/-- Claim C8: the converter is strictly monotonic: a strictly smaller
signed 64-bit offset with a representable result yields a strictly earlier
timestamp on the microsecond time line. -/
theorem postgres_strict_mono (a b : Int)
    (ha64 : -(2 ^ 63) ≤ a) (hb64 : b < 2 ^ 63) (hab : a < b)
    (dta dtb : PyDatetime)
    (hA : postgres_timestamptz_to_datetime a = some dta)
    (hB : postgres_timestamptz_to_datetime b = some dtb) :
    datetimeToMicros dta < datetimeToMicros dtb := by
  obtain ⟨e1, -, -, -⟩ := postgres_result_spec a dta hA
  obtain ⟨e2, -, -, -⟩ := postgres_result_spec b dtb hB
  omega

theorem postgres_strict_mono_witness :
    (-(2 ^ 63) ≤ (0 : Int) ∧ (1 : Int) < 2 ^ 63 ∧ (0 : Int) < 1 ∧
      postgres_timestamptz_to_datetime 0 = some ⟨2000, 1, 1, 0, 0, 0, 0, .utc⟩ ∧
      postgres_timestamptz_to_datetime 1 = some ⟨2000, 1, 1, 0, 0, 0, 1, .utc⟩) ∧
    datetimeToMicros ⟨2000, 1, 1, 0, 0, 0, 0, .utc⟩ <
      datetimeToMicros ⟨2000, 1, 1, 0, 0, 0, 1, .utc⟩ :=
  ⟨⟨by decide, by decide, by decide, by decide, by decide⟩,
   postgres_strict_mono 0 1 (by decide) (by decide) (by decide) _ _
     (by decide) (by decide)⟩

/-- Claim C9: the composition of the two functions is not total over valid
tokens: the 16-character hex token "ffffffffffffff7f" decodes successfully to
the maximal signed 64-bit integer, on which the converter fails with the
out-of-range error. -/
theorem composition_not_total :
    ("ffffffffffffff7f".length = 16 ∧
      ∀ c ∈ "ffffffffffffff7f".data, isHexDigit c = true) ∧
    hex_le_to_int64 "ffffffffffffff7f" = .ok 9223372036854775807 ∧
    postgres_timestamptz_to_datetime 9223372036854775807 = none := by decide

/-- Claim C5: any input whose length is not exactly 16 characters fails with
the InvalidFormat-class error, regardless of content. -/
theorem hex_wrong_length_error (s : String) (h : s.length ≠ 16) :
    hex_le_to_int64 s = .error "Hex string must be exactly 16 characters (8 bytes)." := by
  rw [hex_le_to_int64, if_pos h]

theorem hex_wrong_length_error_witness :
    "abc".length ≠ 16 ∧
    hex_le_to_int64 "abc" = .error "Hex string must be exactly 16 characters (8 bytes)." :=
  ⟨by decide, hex_wrong_length_error "abc" (by decide)⟩

/-- Claim C7: decoding the token "0a00000000000000" yields the integer 10. -/
theorem hex_token_ten : hex_le_to_int64 "0a00000000000000" = .ok 10 := by decide

/-- Claim C3 (code behaviour at the failing input): the 16-character token
"0a000000000000  " ends in two spaces — characters that are not hexadecimal
digits — yet `hex_le_to_int64` accepts it and returns 10, the value of the
remaining seven bytes, because `bytes.fromhex` skips ASCII whitespace. -/
theorem hex_whitespace_accepted :
    (' ' ∈ "0a000000000000  ".data ∧ isHexDigit ' ' = false ∧
      "0a000000000000  ".length = 16) ∧
    hex_le_to_int64 "0a000000000000  " = .ok 10 := by decide

theorem bytesFromHex_sound (k : Nat) :
    ∀ l : List Char, l.length ≤ k → ∀ bs, bytesFromHex l = some bs →
      (∀ b ∈ bs, b < 256) ∧ 2 * bs.length ≤ l.length := by
  induction k with
  | zero =>
    intro l hl bs h
    cases l with
    | nil =>
      simp only [bytesFromHex, Option.some.injEq] at h
      subst h
      simp
    | cons c rest =>
      simp only [List.length_cons] at hl
      omega
  | succ k ih =>
    intro l hl bs h
    cases l with
    | nil =>
      simp only [bytesFromHex, Option.some.injEq] at h
      subst h
      simp
    | cons c rest =>
      rw [bytesFromHex.eq_def] at h
      dsimp only at h
      by_cases hsp : isPySpace c
      · rw [if_pos hsp] at h
        have hlen : rest.length ≤ k := by
          simp only [List.length_cons] at hl
          omega
        obtain ⟨h1, h2⟩ := ih rest hlen bs h
        refine ⟨h1, ?_⟩
        simp only [List.length_cons]
        omega
      · rw [if_neg hsp] at h
        by_cases hx : isHexDigit c
        · rw [if_pos hx] at h
          cases rest with
          | nil =>
            dsimp only at h
            simp at h
          | cons d rest2 =>
            dsimp only at h
            by_cases hx2 : isHexDigit d
            · rw [if_pos hx2] at h
              rw [Option.map_eq_some'] at h
              obtain ⟨bs2, hbs2, rfl⟩ := h
              have hlen2 : rest2.length ≤ k := by
                simp only [List.length_cons] at hl
                omega
              obtain ⟨h1, h2⟩ := ih rest2 hlen2 bs2 hbs2
              have hvc : hexDigitValue c < 16 := by simpa [isHexDigit] using hx
              have hvd : hexDigitValue d < 16 := by simpa [isHexDigit] using hx2
              constructor
              · intro b hb
                rcases List.mem_cons.mp hb with rfl | hb
                · omega
                · exact h1 b hb
              · simp only [List.length_cons]
                omega
            · rw [if_neg hx2] at h
              exact absurd h (by simp)
        · rw [if_neg hx] at h
          exact absurd h (by simp)

theorem leUnsigned_lt (bs : List Nat) (h : ∀ b ∈ bs, b < 256) :
    leUnsigned bs < 256 ^ bs.length := by
  induction bs with
  | nil => simp [leUnsigned]
  | cons b rest ih =>
    simp only [leUnsigned, List.length_cons, pow_succ]
    have hb : b < 256 := h b (by simp)
    have hr := ih (fun x hx => h x (by simp [hx]))
    omega

theorem intFromBytesLESigned_range (bs : List Nat)
    (hb : ∀ b ∈ bs, b < 256) (hlen : bs.length ≤ 8) :
    -(2 ^ 63) ≤ intFromBytesLESigned bs ∧ intFromBytesLESigned bs ≤ 2 ^ 63 - 1 := by
  have hu := leUnsigned_lt bs hb
  have hp : (256 : Nat) ^ bs.length ≤ 256 ^ 8 := Nat.pow_le_pow_right (by norm_num) hlen
  have h8 : (256 : Nat) ^ 8 = 18446744073709551616 := by norm_num
  rw [intFromBytesLESigned]
  split <;> constructor <;> omega

/-- Claim C10: whenever `hex_le_to_int64` returns a value rather than failing,
for any accepted input string whatsoever, that value lies in the signed
64-bit range. -/
theorem hex_result_int64_range (s : String) (v : Int)
    (h : hex_le_to_int64 s = .ok v) :
    -(2 ^ 63) ≤ v ∧ v ≤ 2 ^ 63 - 1 := by
  rw [hex_le_to_int64] at h
  split at h
  · exact absurd h (by simp)
  case isFalse hlen =>
    split at h
    · exact absurd h (by simp)
    case h_2 bs hbs =>
      injection h with h
      subst h
      have h16 : s.length = 16 := by omega
      have hlen16 : s.data.length = 16 := h16
      obtain ⟨h1, h2⟩ := bytesFromHex_sound s.data.length s.data le_rfl bs hbs
      exact intFromBytesLESigned_range bs h1 (by omega)

theorem hex_result_int64_range_witness :
    hex_le_to_int64 "0a00000000000000" = .ok 10 ∧
    (-(2 ^ 63) ≤ (10 : Int) ∧ (10 : Int) ≤ 2 ^ 63 - 1) :=
  ⟨by decide, hex_result_int64_range "0a00000000000000" 10 (by decide)⟩

/-! ## Round-trip of the hex decoder (claim C2) -/

theorem lowerHex_bounds (c : Char) (h : isLowerHexDigit c = true) :
    (48 ≤ c.toNat ∧ c.toNat ≤ 57) ∨ (97 ≤ c.toNat ∧ c.toNat ≤ 102) := by
  simp only [isLowerHexDigit, Bool.or_eq_true, Bool.and_eq_true, decide_eq_true_eq] at h
  exact h

theorem lowerHex_not_space (c : Char) (h : isLowerHexDigit c = true) :
    isPySpace c = false := by
  have hb := lowerHex_bounds c h
  cases hsp : isPySpace c
  · rfl
  · exfalso
    simp only [isPySpace, Bool.or_eq_true, beq_iff_eq] at hsp
    rcases hsp with ((((rfl | rfl) | rfl) | rfl) | rfl) | rfl <;> exact absurd hb (by decide)

theorem lowerHex_isHexDigit (c : Char) (h : isLowerHexDigit c = true) :
    isHexDigit c = true := by
  have hb := lowerHex_bounds c h
  simp only [isHexDigit, decide_eq_true_eq]
  rcases hb with ⟨h1, h2⟩ | ⟨h1, h2⟩
  · unfold hexDigitValue
    rw [if_pos ⟨h1, h2⟩]
    omega
  · have hnot : ¬('0' ≤ c ∧ c ≤ '9') := fun hc => by
      have hx : c.toNat ≤ 57 := hc.2
      omega
    unfold hexDigitValue
    rw [if_neg hnot, if_pos ⟨h1, h2⟩]
    omega

theorem hexDigitChar_hexDigitValue (c : Char) (h : isLowerHexDigit c = true) :
    hexDigitChar (hexDigitValue c) = c := by
  have hb := lowerHex_bounds c h
  rcases hb with ⟨h1, h2⟩ | ⟨h1, h2⟩
  · have hv : hexDigitValue c = c.toNat - 48 := by
      unfold hexDigitValue
      rw [if_pos ⟨h1, h2⟩]
    rw [hv]
    unfold hexDigitChar
    rw [if_pos (by omega), show 48 + (c.toNat - 48) = c.toNat by omega, Char.ofNat_toNat]
  · have hnot : ¬('0' ≤ c ∧ c ≤ '9') := fun hc => by
      have hx : c.toNat ≤ 57 := hc.2
      omega
    have hv : hexDigitValue c = c.toNat - 87 := by
      unfold hexDigitValue
      rw [if_neg hnot, if_pos ⟨h1, h2⟩]
    rw [hv]
    unfold hexDigitChar
    rw [if_neg (by omega), show 87 + (c.toNat - 87) = c.toNat by omega, Char.ofNat_toNat]

/-- On an even-length list of lowercase hex digits, `bytes.fromhex` succeeds
and re-rendering every byte as two lowercase hex characters reproduces the
input list. -/
theorem bytesFromHex_lower (k : Nat) :
    ∀ l : List Char, l.length ≤ k → (∀ c ∈ l, isLowerHexDigit c = true) →
      l.length % 2 = 0 →
      ∃ bs, bytesFromHex l = some bs ∧ 2 * bs.length = l.length ∧
        (∀ b ∈ bs, b < 256) ∧ bs.flatMap byteToHexChars = l := by
  induction k with
  | zero =>
    intro l hl hhex hpar
    cases l with
    | nil => exact ⟨[], rfl, by simp, by simp, by simp⟩
    | cons c rest =>
      simp only [List.length_cons] at hl
      omega
  | succ k ih =>
    intro l hl hhex hpar
    cases l with
    | nil => exact ⟨[], rfl, by simp, by simp, by simp⟩
    | cons c rest =>
      cases rest with
      | nil => simp at hpar
      | cons d rest2 =>
        have hc := hhex c (by simp)
        have hd := hhex d (by simp)
        have hcx := lowerHex_isHexDigit c hc
        have hdx := lowerHex_isHexDigit d hd
        have hcsp := lowerHex_not_space c hc
        obtain ⟨bs2, e1, e2, e3, e4⟩ := ih rest2
          (by simp only [List.length_cons] at hl; omega)
          (fun x hx => hhex x (by simp [hx]))
          (by simp only [List.length_cons] at hpar ⊢; omega)
        have hvc : hexDigitValue c < 16 := by simpa [isHexDigit] using hcx
        have hvd : hexDigitValue d < 16 := by simpa [isHexDigit] using hdx
        refine ⟨(hexDigitValue c * 16 + hexDigitValue d) :: bs2, ?_, ?_, ?_, ?_⟩
        · rw [bytesFromHex.eq_def]
          dsimp only
          rw [if_neg (by simp [hcsp]), if_pos hcx, if_pos hdx, e1]
          rfl
        · simp only [List.length_cons]
          omega
        · intro b hb
          rcases List.mem_cons.mp hb with rfl | hb
          · omega
          · exact e3 b hb
        · rw [List.flatMap_cons, byteToHexChars,
            show (hexDigitValue c * 16 + hexDigitValue d) / 16 = hexDigitValue c by omega,
            show (hexDigitValue c * 16 + hexDigitValue d) % 16 = hexDigitValue d by omega,
            hexDigitChar_hexDigitValue c hc, hexDigitChar_hexDigitValue d hd, e4]
          rfl

theorem intFromBytes_emod_8 (bs : List Nat) (h : ∀ b ∈ bs, b < 256)
    (hlen : bs.length = 8) :
    (intFromBytesLESigned bs % (2 ^ 64 : Int)).toNat = leUnsigned bs := by
  have hu := leUnsigned_lt bs h
  have h8 : (256 : Nat) ^ 8 = 18446744073709551616 := by norm_num
  have h64 : (2 : Int) ^ 64 = 18446744073709551616 := by norm_num
  rw [hlen, h8] at hu
  rw [intFromBytesLESigned, hlen, h8, h64]
  split <;> omega

/-- Reading the little-endian value of a byte list and re-rendering its
base-256 digits recovers the bytes. -/
theorem range_flatMap_digits (bs : List Nat) (hb : ∀ b ∈ bs, b < 256) :
    (List.range bs.length).flatMap
        (fun i => byteToHexChars (leUnsigned bs / 256 ^ i % 256)) =
      bs.flatMap byteToHexChars := by
  induction bs with
  | nil => rfl
  | cons b rest ih =>
    have hb0 : b < 256 := hb b (by simp)
    have hbr : ∀ x ∈ rest, x < 256 := fun x hx => hb x (by simp [hx])
    have hX : leUnsigned (b :: rest) / 256 = leUnsigned rest := by
      simp only [leUnsigned]
      omega
    have h0 : leUnsigned (b :: rest) / 256 ^ 0 % 256 = b := by
      simp only [leUnsigned, pow_zero, Nat.div_one]
      omega
    have key : (fun i => byteToHexChars (leUnsigned (b :: rest) / 256 ^ (Nat.succ i) % 256)) =
        (fun i => byteToHexChars (leUnsigned rest / 256 ^ i % 256)) := by
      funext i
      rw [pow_succ', ← Nat.div_div_eq_div_mul, hX]
    rw [List.length_cons, List.range_succ_eq_map, List.flatMap_cons, List.flatMap_map,
      List.flatMap_cons, h0]
    show byteToHexChars b ++
        (List.range rest.length).flatMap
          (fun i => byteToHexChars (leUnsigned (b :: rest) / 256 ^ (Nat.succ i) % 256)) =
      byteToHexChars b ++ rest.flatMap byteToHexChars
    rw [key, ih hbr]

/-- Claim C2 (amended): for every 16-character token consisting solely of
lowercase hexadecimal digits, `hex_le_to_int64` succeeds, and re-encoding the
returned signed 64-bit integer as 16-character lowercase little-endian hex
reproduces the original token exactly, character for character. -/
theorem hex_roundtrip_lower (s : String) (hlen : s.length = 16)
    (hhex : ∀ c ∈ s.data, isLowerHexDigit c = true) :
    ∃ v : Int, hex_le_to_int64 s = .ok v ∧ int64ToHexLE v = s := by
  obtain ⟨l⟩ := s
  have hl16 : l.length = 16 := hlen
  have hhexl : ∀ c ∈ l, isLowerHexDigit c = true := hhex
  obtain ⟨bs, e1, e2, e3, e4⟩ := bytesFromHex_lower l.length l le_rfl hhexl (by omega)
  have hblen : bs.length = 8 := by omega
  refine ⟨intFromBytesLESigned bs, ?_, ?_⟩
  · unfold hex_le_to_int64
    rw [if_neg (show ¬((String.mk l).length ≠ 16) from fun hne => hne hlen)]
    dsimp only
    rw [e1]
  · unfold int64ToHexLE
    dsimp only
    rw [intFromBytes_emod_8 bs e3 hblen]
    refine congrArg String.mk ?_
    rw [show (8 : Nat) = bs.length from hblen.symm, range_flatMap_digits bs e3, e4]

theorem hex_roundtrip_lower_witness :
    ("0a00000000000000".length = 16 ∧
      ∀ c ∈ "0a00000000000000".data, isLowerHexDigit c = true) ∧
    ∃ v : Int, hex_le_to_int64 "0a00000000000000" = .ok v ∧
      int64ToHexLE v = "0a00000000000000" :=
  ⟨⟨by decide, by decide⟩, hex_roundtrip_lower "0a00000000000000" (by decide) (by decide)⟩

/-- Claim C2 (counterexample): the token "0A00000000000000" is a valid
16-character hex token (case-insensitive), it decodes to 10, but re-encoding
10 as 16-character little-endian hex yields the lowercase token
"0a00000000000000", which differs from the original character for character:
the round-trip law as stated fails on uppercase tokens. -/
theorem hex_roundtrip_uppercase_fails :
    ("0A00000000000000".length = 16 ∧
      ∀ c ∈ "0A00000000000000".data, isHexDigit c = true) ∧
    hex_le_to_int64 "0A00000000000000" = .ok 10 ∧
    int64ToHexLE 10 ≠ "0A00000000000000" := by decide
